import Mathlib

/-!
# Verification of the field-ownership manager (`fieldmanager.go`)

Shallow embedding of `staging/src/k8s.io/apiserver/pkg/endpoints/handlers/
fieldmanager/fieldmanager.go`.  The field manager orchestrates external
collaborators (the merge engine, the type/version converters, the
managed-fields codec); those are modelled as oracle functions carried in a
`fieldManager` record, while the orchestration logic of `Update`, `Apply`,
`buildManagerInfo` and `stripFields` is translated statement by statement.

Go objects (`runtime.Object`, typed objects, patch byte buffers) are opaque
handles, modelled as `Nat`.  Go's `(value, error)` returns are modelled with
`Except String`, and a function that can also `panic` returns a result type
with an explicit `panicked` constructor.
-/

namespace FieldManagerSpec

/-- Opaque handle for a `runtime.Object`. -/
abbrev Obj := Nat

/-- Opaque handle for a typed object (`typed.TypedValue`). -/
abbrev TypedObj := Nat

/-- Opaque handle for a patch byte buffer (`[]byte`). -/
abbrev Patch := Nat

/-- Timestamps (`metav1.Time`), modelled as natural numbers. -/
abbrev Time := Nat

/-- A structured field path (`fieldpath.Path`), modelled as its list of
path components. -/
abbrev Path := List String

/-- A field-path set (`fieldpath.Set`), modelled as a list of paths with
set-like operations. -/
abbrev FieldSet := List Path

/-- `fieldpath.Set.Difference`: the paths of `s` that are not in `t`. -/
def FieldSet.Difference (s t : FieldSet) : FieldSet :=
  s.filter (fun p => decide (p ∉ t))

/-- `fieldpath.Set.Union`: the paths of `s` together with the paths of `t`
not already in `s`. -/
def FieldSet.Union (s t : FieldSet) : FieldSet :=
  s ++ t.filter (fun p => decide (p ∉ s))

/-- `fieldpath.Set.Empty`. -/
def FieldSet.Empty (s : FieldSet) : Bool :=
  s.isEmpty

/-- `fieldpath.VersionedSet`: a field-path set together with the API version
it was recorded against and whether it came from an apply operation. -/
structure VersionedSet where
  set : FieldSet
  apiVersion : String
  applied : Bool
deriving DecidableEq, Repr

/-- `fieldpath.NewVersionedSet`. -/
def NewVersionedSet (s : FieldSet) (v : String) (a : Bool) : VersionedSet :=
  ⟨s, v, a⟩

/-- `fieldpath.ManagedFields`: a map from manager identity to versioned set.
Modelled as an association list; a `none` value models a present key whose
interface value is Go `nil`. -/
abbrev ManagedFields := List (String × Option VersionedSet)

/-- Go map lookup `managed[manager]`: `none` when the key is absent,
`some v` when present (where `v = none` models a nil value). -/
def mfLookup : ManagedFields → String → Option (Option VersionedSet)
  | [], _ => none
  | e :: rest, k => if e.1 = k then some e.2 else mfLookup rest k

/-- Go map assignment `managed[manager] = v`: replace the existing entry or
append a new one. -/
def mfInsert : ManagedFields → String → Option VersionedSet → ManagedFields
  | [], k, v => [(k, v)]
  | e :: rest, k, v =>
    if e.1 = k then (k, v) :: rest else e :: mfInsert rest k v

/-- Go map deletion `delete(managed, manager)`. -/
def mfDelete (m : ManagedFields) (k : String) : ManagedFields :=
  m.filter (fun e => decide (e.1 ≠ k))

/-- The per-identity timestamp map (`map[string]*metav1.Time`). -/
abbrev Times := List (String × Time)

/-- Go map lookup on the timestamp map. -/
def timesLookup : Times → String → Option Time
  | [], _ => none
  | e :: rest, k => if e.1 = k then some e.2 else timesLookup rest k

/-- Go map assignment on the timestamp map. -/
def timesInsert : Times → String → Time → Times
  | [], k, v => [(k, v)]
  | e :: rest, k, v =>
    if e.1 = k then (k, v) :: rest else e :: timesInsert rest k v

/-- `internal.Managed`: the decoded ownership ledger — per-identity field
sets plus per-identity last-write timestamps. -/
structure Managed where
  Fields : ManagedFields
  Times : Times
deriving DecidableEq, Repr

/-- `metav1.ManagedFieldsEntry` (the part used by `buildManagerInfo`). -/
structure ManagedFieldsEntry where
  Manager : String
  Operation : String
  APIVersion : String
deriving DecidableEq, Repr

/-- `metav1.ManagedFieldsOperationUpdate`. -/
def ManagedFieldsOperationUpdate : String := "Update"

/-- `metav1.ManagedFieldsOperationApply`. -/
def ManagedFieldsOperationApply : String := "Apply"

/-- `stripSet` is the list of fields that should never be part of a
managedFields (fieldmanager.go lines 288–301). -/
def stripSet : FieldSet :=
  [ ["apiVersion"]
  , ["kind"]
  , ["metadata"]
  , ["metadata", "name"]
  , ["metadata", "namespace"]
  , ["metadata", "creationTimestamp"]
  , ["metadata", "selfLink"]
  , ["metadata", "uid"]
  , ["metadata", "clusterName"]
  , ["metadata", "generation"]
  , ["metadata", "managedFields"]
  , ["metadata", "resourceVersion"] ]

/-- Result of `stripFields`, which either returns an updated ledger or
panics (Go `panic`). -/
inductive StripResult where
  | ok (m : ManagedFields)
  | panicked (msg : String)
deriving DecidableEq, Repr

/-- `stripFields` (fieldmanager.go lines 304–319): removes the predefined
`stripSet` paths from the acting manager's entry; deletes the entry when the
difference is empty; panics when the key is present with a nil set. -/
def stripFields (managed : ManagedFields) (manager : String) : StripResult :=
  match mfLookup managed manager with
  | none => .ok managed
  | some none =>
      .panicked ("Found unexpected nil manager which should never happen: "
        ++ manager)
  | some (some vs) =>
      let newSet := FieldSet.Difference vs.set stripSet
      if FieldSet.Empty newSet then
        .ok (mfDelete managed manager)
      else
        .ok (mfInsert managed manager
          (some (NewVersionedSet newSet vs.apiVersion vs.applied)))

/-- A single conflict reported by the merge engine (`merge.Conflict`):
the owning manager and the conflicting field path. -/
structure Conflict where
  manager : String
  path : Path
deriving DecidableEq, Repr

/-- Outcome of the merge engine's `Apply` (`merge.Updater.Apply`), modelled
as a tagged result: success, a conflicts-shaped failure (`merge.Conflicts`,
distinguished in the source by a type assertion on the error), or any other
failure. -/
inductive MergeApplyOutcome where
  | ok (newTyped : TypedObj) (fields : ManagedFields)
  | conflicts (cs : List Conflict)
  | failure (msg : String)
deriving DecidableEq, Repr

/-- Result of a Go `(runtime.Object, error)` call that may also panic. -/
inductive GoResult (α : Type) where
  | ok (val : α)
  | err (msg : String)
  | panicked (msg : String)
deriving DecidableEq, Repr

/-- Result of `fieldManager.Apply`: success, a bad-request error
(`errors.NewBadRequest`), a structured conflict error
(`internal.NewConflictError`), any other error, or a panic. -/
inductive ApplyResult where
  | ok (obj : Obj)
  | badRequest (msg : String)
  | conflictErr (cs : List Conflict)
  | err (msg : String)
  | panicked (msg : String)
deriving DecidableEq, Repr

/-- The `fieldManager` struct: its configuration (`groupVersion`,
`hubVersion`) together with oracle functions modelling the external
collaborators it composes (`meta.Accessor`, the managed-fields codec, the
object/type converters, the merge engine, the manager-identifier builder,
YAML parsing, and the defaulter). -/
structure fieldManager where
  groupVersion : String
  hubVersion : String
  /-- `meta.Accessor(obj)`: succeeds iff the object exposes metadata. -/
  accessor : Obj → Except String Unit
  /-- `internal.DecodeObjectManagedFields`. -/
  decodeManagedFields : Obj → Except String Managed
  /-- `objectConverter.ConvertToVersion(obj, version)`. -/
  convertToVersion : Obj → String → Except String Obj
  /-- `internal.RemoveObjectManagedFields` (in-place in Go, pure here). -/
  removeManagedFields : Obj → Obj
  /-- `typeConverter.ObjectToTyped`. -/
  objectToTyped : Obj → Except String TypedObj
  /-- `typeConverter.TypedToObject`. -/
  typedToObject : TypedObj → Except String Obj
  /-- `updater.Update(liveTyped, newTyped, apiVersion, fields, manager)`. -/
  updaterUpdate : TypedObj → TypedObj → String → ManagedFields → String →
    Except String (TypedObj × ManagedFields)
  /-- `updater.Apply(liveTyped, patchTyped, apiVersion, fields, manager, force)`. -/
  updaterApply : TypedObj → TypedObj → String → ManagedFields → String → Bool →
    MergeApplyOutcome
  /-- `internal.BuildManagerIdentifier`. -/
  buildManagerIdentifier : ManagedFieldsEntry → Except String String
  /-- `internal.EncodeObjectManagedFields(obj, managed)` (in-place in Go;
  here it returns the updated object). -/
  encodeManagedFields : Obj → Managed → Except String Obj
  /-- `yaml.Unmarshal(patch, &patchObj.Object)`: parse the patch bytes into
  an unstructured object. -/
  unmarshalPatch : Patch → Except String Obj
  /-- `patchObj.GetManagedFields() != nil`: whether the parsed patch
  declares a managed-fields ledger. -/
  getManagedFieldsNonNil : Obj → Bool
  /-- `patchObj.GetAPIVersion()`. -/
  getAPIVersion : Obj → String
  /-- `objectDefaulter.Default` (in-place in Go, pure here). -/
  defaultObj : Obj → Obj

/-- `fieldManager.buildManagerInfo` (lines 275–285): defaults an empty
manager name to `"unknown"` and builds the identifier from name, operation
and the manager's working API version. -/
def fieldManager.buildManagerInfo (f : fieldManager) (pfx operation : String) :
    Except String String :=
  let name := if pfx = "" then "unknown" else pfx
  f.buildManagerIdentifier ⟨name, operation, f.groupVersion⟩

/-- The ledger-decoding step of `Update` (lines 112–124, without the error
wrapping done at the return): decode the managed fields from the incoming
object; if that fails or yields an empty ledger, decode from the live
object instead. -/
def fieldManager.decodeUpdateLedger (f : fieldManager) (liveObj newObj : Obj) :
    Except String Managed :=
  match f.decodeManagedFields newObj with
  | .error _ => f.decodeManagedFields liveObj
  | .ok managed =>
      if managed.Fields.length = 0 then f.decodeManagedFields liveObj
      else .ok managed

/-- `fieldManager.Update` (lines 105–180), translated branch by branch.
A missing metadata accessor and typed-conversion failures degrade to
pass-through of `newObj`; version-conversion, decode, merge-engine, identity
and encode failures are hard errors. -/
def fieldManager.Update (f : fieldManager) (liveObj newObj : Obj)
    (manager : String) (now : Time) : GoResult Obj :=
  match f.accessor newObj with
  | .error _ => .ok newObj
  | .ok _ =>
  match f.decodeUpdateLedger liveObj newObj with
  | .error e => .err ("failed to decode managed fields: " ++ e)
  | .ok managed =>
  match f.convertToVersion newObj f.groupVersion with
  | .error e => .err ("failed to convert new object to proper version: " ++ e)
  | .ok newObjVersionedRaw =>
  match f.convertToVersion liveObj f.groupVersion with
  | .error e => .err ("failed to convert live object to proper version: " ++ e)
  | .ok liveObjVersionedRaw =>
  let liveObjVersioned := f.removeManagedFields liveObjVersionedRaw
  let newObjVersioned := f.removeManagedFields newObjVersionedRaw
  match f.objectToTyped newObjVersioned with
  | .error _ => .ok newObj
  | .ok newObjTyped =>
  match f.objectToTyped liveObjVersioned with
  | .error _ => .ok newObj
  | .ok liveObjTyped =>
  match f.updaterUpdate liveObjTyped newObjTyped f.groupVersion
      managed.Fields manager with
  | .error e => .err ("failed to update ManagedFields: " ++ e)
  | .ok res =>
  match stripFields res.2 manager with
  | .panicked msg => .panicked msg
  | .ok strippedFields =>
  match mfLookup strippedFields manager with
  | none =>
      match f.encodeManagedFields newObj ⟨strippedFields, managed.Times⟩ with
      | .error e => .err ("failed to encode managed fields: " ++ e)
      | .ok outObj => .ok outObj
  | some vsOpt =>
      let fieldsDel := mfDelete strippedFields manager
      match f.buildManagerInfo manager ManagedFieldsOperationUpdate with
      | .error e => .err ("failed to build manager identifier: " ++ e)
      | .ok identity =>
      let newTimes := timesInsert managed.Times identity now
      match mfLookup fieldsDel identity with
      | none =>
          match f.encodeManagedFields newObj
              ⟨mfInsert fieldsDel identity vsOpt, newTimes⟩ with
          | .error e => .err ("failed to encode managed fields: " ++ e)
          | .ok outObj => .ok outObj
      | some previousOpt =>
          match vsOpt, previousOpt with
          | some vs, some previous =>
              match f.encodeManagedFields newObj
                  ⟨mfInsert fieldsDel identity
                    (some (NewVersionedSet (FieldSet.Union vs.set previous.set)
                      vs.apiVersion vs.applied)), newTimes⟩ with
              | .error e => .err ("failed to encode managed fields: " ++ e)
              | .ok outObj => .ok outObj
          | _, _ =>
              .panicked
                "runtime error: invalid memory address or nil pointer dereference"

/-- `fieldManager.Apply` (lines 183–265), translated branch by branch.
Every failure is hard; the merge engine's conflicts-shaped failure is
translated to a structured conflict error, any other merge failure is
propagated unchanged. -/
def fieldManager.Apply (f : fieldManager) (liveObj : Obj) (patch : Patch)
    (fieldMgrName : String) (force : Bool) (now : Time) : ApplyResult :=
  match f.accessor liveObj with
  | .error e => .err ("couldn't get accessor: " ++ e)
  | .ok _ =>
  match f.decodeManagedFields liveObj with
  | .error e => .err ("failed to decode managed fields: " ++ e)
  | .ok managed =>
  match f.unmarshalPatch patch with
  | .error e => .badRequest ("error decoding YAML: " ++ e)
  | .ok patchObj =>
  if f.getManagedFieldsNonNil patchObj then
    .badRequest "metadata.managedFields must be nil"
  else if f.getAPIVersion patchObj ≠ f.groupVersion then
    .badRequest
      ("Incorrect version specified in apply patch. Specified patch version: "
        ++ f.getAPIVersion patchObj ++ ", expected: " ++ f.groupVersion)
  else
  match f.convertToVersion liveObj f.groupVersion with
  | .error e => .err ("failed to convert live object to proper version: " ++ e)
  | .ok liveObjVersionedRaw =>
  let liveObjVersioned := f.removeManagedFields liveObjVersionedRaw
  match f.objectToTyped patchObj with
  | .error e => .err ("failed to create typed patch object: " ++ e)
  | .ok patchObjTyped =>
  match f.objectToTyped liveObjVersioned with
  | .error e => .err ("failed to create typed live object: " ++ e)
  | .ok liveObjTyped =>
  match f.buildManagerInfo fieldMgrName ManagedFieldsOperationApply with
  | .error e => .err ("failed to build manager identifier: " ++ e)
  | .ok manager =>
  match f.updaterApply liveObjTyped patchObjTyped f.groupVersion
      managed.Fields manager force with
  | .conflicts cs => .conflictErr cs
  | .failure e => .err e
  | .ok newObjTyped managedFields =>
  match stripFields managedFields manager with
  | .panicked msg => .panicked msg
  | .ok strippedFields =>
  let newTimes := timesInsert managed.Times manager now
  match f.typedToObject newObjTyped with
  | .error e => .err ("failed to convert new typed object to object: " ++ e)
  | .ok newObj =>
  match f.encodeManagedFields newObj ⟨strippedFields, newTimes⟩ with
  | .error e => .err ("failed to encode managed fields: " ++ e)
  | .ok newObjEncoded =>
  match f.convertToVersion newObjEncoded f.groupVersion with
  | .error e => .err ("failed to convert new object to proper version: " ++ e)
  | .ok newObjVersioned =>
  let newObjDefaulted := f.defaultObj newObjVersioned
  match f.convertToVersion newObjDefaulted f.hubVersion with
  | .error e => .err ("failed to convert to unversioned: " ++ e)
  | .ok newObjUnversioned => .ok newObjUnversioned

/-! ## Association-list map lemmas -/

theorem mfLookup_mfDelete_self (m : ManagedFields) (k : String) :
    mfLookup (mfDelete m k) k = none := by
  induction m with
  | nil => rfl
  | cons e rest ih =>
    by_cases h1 : e.1 = k
    · simp [mfDelete, List.filter_cons, h1] at ih ⊢
      exact ih
    · simp [mfDelete, List.filter_cons, h1, mfLookup] at ih ⊢
      exact ih

theorem mfLookup_mfDelete_ne (m : ManagedFields) (k k' : String) (h : k' ≠ k) :
    mfLookup (mfDelete m k) k' = mfLookup m k' := by
  induction m with
  | nil => rfl
  | cons e rest ih =>
    by_cases h1 : e.1 = k
    · have h2 : ¬ k = k' := fun hh => h hh.symm
      simp [mfDelete, List.filter_cons, h1, mfLookup, h2] at ih ⊢
      exact ih
    · simp [mfDelete, List.filter_cons, h1, mfLookup] at ih ⊢
      split <;> simp [ih]

theorem mfLookup_mfInsert_self (m : ManagedFields) (k : String)
    (v : Option VersionedSet) : mfLookup (mfInsert m k v) k = some v := by
  induction m with
  | nil => simp [mfInsert, mfLookup]
  | cons e rest ih =>
    by_cases h1 : e.1 = k
    · simp [mfInsert, h1, mfLookup]
    · simp [mfInsert, h1, mfLookup, ih]

theorem mfLookup_mfInsert_ne (m : ManagedFields) (k k' : String)
    (v : Option VersionedSet) (h : k' ≠ k) :
    mfLookup (mfInsert m k v) k' = mfLookup m k' := by
  induction m with
  | nil =>
    have h2 : ¬ k = k' := fun hh => h hh.symm
    simp [mfInsert, mfLookup, h2]
  | cons e rest ih =>
    by_cases h1 : e.1 = k
    · have h2 : ¬ k = k' := fun hh => h hh.symm
      simp [mfInsert, h1, mfLookup, h2]
    · simp only [mfInsert]
      rw [if_neg h1]
      simp only [mfLookup]
      split <;> simp [ih]

theorem mfLookup_mem (m : ManagedFields) (k : String) (v : Option VersionedSet)
    (h : mfLookup m k = some v) : (k, v) ∈ m := by
  induction m with
  | nil => simp [mfLookup] at h
  | cons e rest ih =>
    by_cases h1 : e.1 = k
    · simp [mfLookup, h1] at h
      have he : e = (k, v) := by cases e; simp_all
      rw [he]
      exact List.mem_cons_self _ _
    · simp [mfLookup, h1] at h
      exact List.mem_cons_of_mem _ (ih h)

theorem timesLookup_timesInsert_self (t : Times) (k : String) (v : Time) :
    timesLookup (timesInsert t k v) k = some v := by
  induction t with
  | nil => simp [timesInsert, timesLookup]
  | cons e rest ih =>
    by_cases h1 : e.1 = k
    · simp [timesInsert, h1, timesLookup]
    · simp [timesInsert, h1, timesLookup, ih]

/-! ## A concrete model instance, used to evaluate the theorems on
concrete inputs -/

/-- A concrete field manager in which every collaborator succeeds:
conversions are the identity, the merge engine returns the incoming typed
object and the ledger unchanged, and the identity builder concatenates
name, operation and version. -/
def sampleFM : fieldManager where
  groupVersion := "v1"
  hubVersion := "hub"
  accessor := fun _ => .ok ()
  decodeManagedFields := fun _ => .ok ⟨[], []⟩
  convertToVersion := fun o _ => .ok o
  removeManagedFields := fun o => o
  objectToTyped := fun o => .ok o
  typedToObject := fun t => .ok t
  updaterUpdate := fun _ newT _ flds _ => .ok (newT, flds)
  updaterApply := fun _ p _ flds _ _ => .ok p flds
  buildManagerIdentifier := fun e =>
    .ok (e.Manager ++ "/" ++ e.Operation ++ "/" ++ e.APIVersion)
  encodeManagedFields := fun o _ => .ok o
  unmarshalPatch := fun _ => .ok 0
  getManagedFieldsNonNil := fun _ => false
  getAPIVersion := fun _ => "v1"
  defaultObj := fun o => o

/-- A sample versioned set whose stripped difference is non-empty. -/
def vsSample : VersionedSet := ⟨[["spec"], ["apiVersion"]], "v1", true⟩

/-- A sample ledger with a single non-nil entry. -/
def mfSample : ManagedFields := [("mgr", some vsSample)]

/-- A sample ledger whose entry for `"mgr"` is present with a nil set. -/
def mfNilEntry : ManagedFields := [("mgr", none)]

/-! ## Claim theorems -/

/-- C6: for every ledger and identity present in it with a non-nil set,
`stripFields` replaces that identity's set with its difference against the
fixed bookkeeping path set `stripSet`; if the difference is empty the
identity's entry is deleted, otherwise it becomes a new versioned set
carrying the reduced set with the original API version and applied flag. -/
theorem stripFields_difference_spec (managed : ManagedFields)
    (manager : String) (vs : VersionedSet)
    (h : mfLookup managed manager = some (some vs)) :
    stripFields managed manager =
      (if FieldSet.Empty (FieldSet.Difference vs.set stripSet) then
        StripResult.ok (mfDelete managed manager)
      else
        StripResult.ok (mfInsert managed manager
          (some (NewVersionedSet (FieldSet.Difference vs.set stripSet)
            vs.apiVersion vs.applied)))) := by
  unfold stripFields
  rw [h]

/-- Witness for C6 at a concrete ledger. -/
theorem stripFields_difference_spec_witness :
    mfLookup mfSample "mgr" = some (some vsSample) ∧
    stripFields mfSample "mgr" =
      (if FieldSet.Empty (FieldSet.Difference vsSample.set stripSet) then
        StripResult.ok (mfDelete mfSample "mgr")
      else
        StripResult.ok (mfInsert mfSample "mgr"
          (some (NewVersionedSet (FieldSet.Difference vsSample.set stripSet)
            vsSample.apiVersion vsSample.applied)))) :=
  ⟨by decide, stripFields_difference_spec mfSample "mgr" vsSample (by decide)⟩

/-- C7: for every incoming object whose metadata accessor fails, `Update`
returns that object unchanged and reports no error, regardless of the live
object, the manager name, or the ledger. -/
theorem update_no_accessor_passthrough (f : fieldManager)
    (liveObj newObj : Obj) (manager : String) (now : Time) (e : String)
    (h : f.accessor newObj = .error e) :
    fieldManager.Update f liveObj newObj manager now = .ok newObj := by
  unfold fieldManager.Update
  rw [h]

/-- A field manager whose objects expose no metadata accessor. -/
def noAccessorFM : fieldManager :=
  { sampleFM with
    accessor := fun _ => .error "object does not implement the Object interfaces" }

/-- Witness for C7 at a concrete model. -/
theorem update_no_accessor_passthrough_witness :
    noAccessorFM.accessor 7 =
      .error "object does not implement the Object interfaces" ∧
    fieldManager.Update noAccessorFM 3 7 "mgr" 0 = .ok 7 :=
  ⟨rfl, update_no_accessor_passthrough noAccessorFM 3 7 "mgr" 0 _ rfl⟩

/-- C8: when the identity's key is present but maps to a nil set,
`stripFields` panics (fails fatally, not recoverably); and this branch is
unreachable for any ledger in which every present key maps to a non-nil
set. -/
theorem stripFields_nil_fatal (managed : ManagedFields) (manager : String) :
    (mfLookup managed manager = some none →
      stripFields managed manager =
        .panicked ("Found unexpected nil manager which should never happen: "
          ++ manager)) ∧
    ((∀ k v, (k, v) ∈ managed → v ≠ none) →
      ∀ msg, stripFields managed manager ≠ .panicked msg) := by
  constructor
  · intro h
    unfold stripFields
    rw [h]
  · intro hinv msg
    unfold stripFields
    cases hl : mfLookup managed manager with
    | none => simp
    | some vsOpt =>
      cases vsOpt with
      | none => exact absurd rfl (hinv manager none (mfLookup_mem _ _ _ hl))
      | some vs =>
        dsimp only
        split <;> simp

/-- Witness for C8: a nil entry panics; a ledger satisfying the invariant
does not panic. -/
theorem stripFields_nil_fatal_witness :
    stripFields mfNilEntry "mgr" =
      .panicked ("Found unexpected nil manager which should never happen: "
        ++ "mgr") ∧
    stripFields mfSample "mgr" ≠ .panicked "boom" :=
  ⟨(stripFields_nil_fatal mfNilEntry "mgr").1 (by decide),
   (stripFields_nil_fatal mfSample "mgr").2
     (by
       intro k v hm
       simp [mfSample] at hm
       simp [hm.2]) "boom"⟩

/-- C9: `stripFields` modifies at most the entry keyed by the acting
identity — every other identity's entry is looked up identically before and
after the call.  (The per-identity timestamp map cannot change: as the
definition shows, `stripFields` receives only the field-set map, and its
callers pass `managed.Times` through untouched.) -/
theorem stripFields_frame (managed : ManagedFields) (manager k : String)
    (m' : ManagedFields) (hk : k ≠ manager)
    (h : stripFields managed manager = .ok m') :
    mfLookup m' k = mfLookup managed k := by
  unfold stripFields at h
  cases hl : mfLookup managed manager with
  | none =>
    rw [hl] at h
    injection h with h2
    rw [h2]
  | some vsOpt =>
    cases vsOpt with
    | none =>
      rw [hl] at h
      simp at h
    | some vs =>
      rw [hl] at h
      dsimp only at h
      split at h <;> injection h with h2 <;> rw [← h2]
      · exact mfLookup_mfDelete_ne _ _ _ hk
      · exact mfLookup_mfInsert_ne _ _ _ _ hk

/-- A two-entry ledger used by the frame witness. -/
def mfTwo : ManagedFields :=
  [("a", some vsSample), ("b", some (VersionedSet.mk [["status"]] "v1" false))]

/-- Witness for C9 at a concrete two-entry ledger. -/
theorem stripFields_frame_witness :
    ("b" : String) ≠ "a" ∧
    stripFields mfTwo "a" =
      .ok [("a", some (VersionedSet.mk [["spec"]] "v1" true)),
           ("b", some (VersionedSet.mk [["status"]] "v1" false))] ∧
    mfLookup [("a", some (VersionedSet.mk [["spec"]] "v1" true)),
              ("b", some (VersionedSet.mk [["status"]] "v1" false))] "b" =
      mfLookup mfTwo "b" :=
  ⟨by decide, by decide,
   stripFields_frame mfTwo "a" "b" _ (by decide) (by decide)⟩

/-- A field manager whose version conversion always fails. -/
def convFailFM : fieldManager :=
  { sampleFM with convertToVersion := fun _ _ => .error "conversion failed" }

/-- C1 counterexample: with a failing version conversion, `Update` returns
a hard error, not the incoming object — version-conversion failure is not
tolerated by pass-through. -/
theorem update_version_conversion_hard_error_cex :
    convFailFM.convertToVersion 7 convFailFM.groupVersion =
      .error "conversion failed" ∧
    fieldManager.Update convFailFM 3 7 "mgr" 0 =
      .err ("failed to convert new object to proper version: conversion failed") ∧
    fieldManager.Update convFailFM 3 7 "mgr" 0 ≠ .ok 7 := by
  refine ⟨rfl, by decide, by decide⟩

/-- C1 (amended): in `Update`, failure to convert either object to the
working API version is a hard error; the pass-through degradation applies
instead when converting either versioned object to typed form fails. -/
theorem update_conversion_failure_split (f : fieldManager)
    (liveObj newObj : Obj) (manager : String) (now : Time) (managed : Managed)
    (h0 : f.accessor newObj = .ok ())
    (h1 : f.decodeUpdateLedger liveObj newObj = .ok managed) :
    (∀ e, f.convertToVersion newObj f.groupVersion = .error e →
      fieldManager.Update f liveObj newObj manager now =
        .err ("failed to convert new object to proper version: " ++ e)) ∧
    (∀ nv e, f.convertToVersion newObj f.groupVersion = .ok nv →
      f.convertToVersion liveObj f.groupVersion = .error e →
      fieldManager.Update f liveObj newObj manager now =
        .err ("failed to convert live object to proper version: " ++ e)) ∧
    (∀ nv lv e, f.convertToVersion newObj f.groupVersion = .ok nv →
      f.convertToVersion liveObj f.groupVersion = .ok lv →
      f.objectToTyped (f.removeManagedFields nv) = .error e →
      fieldManager.Update f liveObj newObj manager now = .ok newObj) ∧
    (∀ nv lv nt e, f.convertToVersion newObj f.groupVersion = .ok nv →
      f.convertToVersion liveObj f.groupVersion = .ok lv →
      f.objectToTyped (f.removeManagedFields nv) = .ok nt →
      f.objectToTyped (f.removeManagedFields lv) = .error e →
      fieldManager.Update f liveObj newObj manager now = .ok newObj) := by
  refine ⟨?_, ?_, ?_, ?_⟩
  · intro e he
    simp only [fieldManager.Update, h0, h1, he]
  · intro nv e hn hl
    simp only [fieldManager.Update, h0, h1, hn, hl]
  · intro nv lv e hn hl ht
    simp only [fieldManager.Update, h0, h1, hn, hl, ht]
  · intro nv lv nt e hn hl htn htl
    simp only [fieldManager.Update, h0, h1, hn, hl, htn, htl]

/-- A field manager whose typed conversion always fails. -/
def typedFailFM : fieldManager :=
  { sampleFM with objectToTyped := fun _ => .error "no corresponding type" }

/-- Witness for the amended C1: version-conversion failure yields the hard
error, typed-conversion failure yields pass-through. -/
theorem update_conversion_failure_split_witness :
    fieldManager.Update convFailFM 3 7 "mgr" 0 =
      .err ("failed to convert new object to proper version: "
        ++ "conversion failed") ∧
    fieldManager.Update typedFailFM 3 7 "mgr" 0 = .ok 7 :=
  ⟨(update_conversion_failure_split convFailFM 3 7 "mgr" 0 ⟨[], []⟩
      rfl rfl).1 "conversion failed" rfl,
   (update_conversion_failure_split typedFailFM 3 7 "mgr" 0 ⟨[], []⟩
      rfl rfl).2.2.1 7 3 "no corresponding type" rfl rfl rfl⟩

/-- C5: the ledger is decoded from the incoming object first; on failure or
emptiness the live object's ledger is used instead; a hard decode error
arises exactly when that fallback decode fails, and a failed incoming
decode alone never surfaces as an error. -/
theorem update_decode_fallback (f : fieldManager) (liveObj newObj : Obj)
    (manager : String) (now : Time) :
    (∀ m, f.decodeManagedFields newObj = .ok m → m.Fields.length ≠ 0 →
      f.decodeUpdateLedger liveObj newObj = .ok m) ∧
    (∀ e, f.decodeManagedFields newObj = .error e →
      f.decodeUpdateLedger liveObj newObj = f.decodeManagedFields liveObj) ∧
    (∀ m, f.decodeManagedFields newObj = .ok m → m.Fields.length = 0 →
      f.decodeUpdateLedger liveObj newObj = f.decodeManagedFields liveObj) ∧
    (∀ e m', f.decodeManagedFields newObj = .error e →
      f.decodeManagedFields liveObj = .ok m' →
      f.decodeUpdateLedger liveObj newObj = .ok m') ∧
    (∀ e, f.decodeUpdateLedger liveObj newObj = .error e →
      f.decodeManagedFields liveObj = .error e) ∧
    (∀ e, f.accessor newObj = .ok () →
      f.decodeUpdateLedger liveObj newObj = .error e →
      fieldManager.Update f liveObj newObj manager now =
        .err ("failed to decode managed fields: " ++ e)) := by
  refine ⟨?_, ?_, ?_, ?_, ?_, ?_⟩
  · intro m hm hne
    simp only [fieldManager.decodeUpdateLedger, hm, if_neg hne]
  · intro e he
    simp only [fieldManager.decodeUpdateLedger, he]
  · intro m hm hz
    simp only [fieldManager.decodeUpdateLedger, hm, if_pos hz]
  · intro e m' he hl
    simp only [fieldManager.decodeUpdateLedger, he, hl]
  · intro e hd
    unfold fieldManager.decodeUpdateLedger at hd
    cases hn : f.decodeManagedFields newObj with
    | error e' =>
      rw [hn] at hd
      exact hd
    | ok m =>
      rw [hn] at hd
      dsimp only at hd
      by_cases hz : m.Fields.length = 0
      · rw [if_pos hz] at hd
        exact hd
      · rw [if_neg hz] at hd
        exact absurd hd (by simp)
  · intro e hacc hd
    simp only [fieldManager.Update, hacc, hd]

/-- A field manager in which both the incoming and the live ledger fail to
decode. -/
def decodeBothFailFM : fieldManager :=
  { sampleFM with decodeManagedFields := fun _ => .error "corrupt" }

/-- Witness for C5: with both decodes failing, `Update` surfaces the hard
decode error. -/
theorem update_decode_fallback_witness :
    fieldManager.decodeUpdateLedger decodeBothFailFM 3 7 = .error "corrupt" ∧
    fieldManager.Update decodeBothFailFM 3 7 "mgr" 0 =
      .err ("failed to decode managed fields: " ++ "corrupt") :=
  ⟨rfl,
   (update_decode_fallback decodeBothFailFM 3 7 "mgr" 0).2.2.2.2.2
     "corrupt" rfl rfl⟩

theorem FieldSet.mem_Union (p : Path) (s t : FieldSet) :
    p ∈ FieldSet.Union s t ↔ p ∈ s ∨ p ∈ t := by
  simp only [FieldSet.Union, List.mem_append, List.mem_filter,
    decide_eq_true_eq]
  tauto

/-- C2: in `Update`, when the acting manager's stripped set is non-empty
(its plain-name entry is present after stripping), the plain-name entry is
removed, the full Update identity is built, that identity's last-write time
is set to now, and its ledger entry becomes the union of the new set with
any previously existing set under that identity (keeping the new set's API
version and applied flag) — or the new set itself when no previous entry
exists.  The union is never narrower than either operand. -/
theorem update_accumulates (f : fieldManager) (liveObj newObj : Obj)
    (manager : String) (now : Time) (managed : Managed) (nvRaw lvRaw : Obj)
    (nt lt t0 : TypedObj) (fields1 stripped : ManagedFields)
    (vs : VersionedSet) (identity : String)
    (h0 : f.accessor newObj = .ok ())
    (h1 : f.decodeUpdateLedger liveObj newObj = .ok managed)
    (h2 : f.convertToVersion newObj f.groupVersion = .ok nvRaw)
    (h3 : f.convertToVersion liveObj f.groupVersion = .ok lvRaw)
    (h4 : f.objectToTyped (f.removeManagedFields nvRaw) = .ok nt)
    (h5 : f.objectToTyped (f.removeManagedFields lvRaw) = .ok lt)
    (h6 : f.updaterUpdate lt nt f.groupVersion managed.Fields manager =
      .ok (t0, fields1))
    (h7 : stripFields fields1 manager = .ok stripped)
    (h8 : mfLookup stripped manager = some (some vs))
    (h9 : f.buildManagerInfo manager ManagedFieldsOperationUpdate =
      .ok identity) :
    mfLookup (mfDelete stripped manager) manager = none ∧
    timesLookup (timesInsert managed.Times identity now) identity = some now ∧
    (∀ previous,
      mfLookup (mfDelete stripped manager) identity = some (some previous) →
      fieldManager.Update f liveObj newObj manager now =
        (match f.encodeManagedFields newObj
            ⟨mfInsert (mfDelete stripped manager) identity
              (some (NewVersionedSet (FieldSet.Union vs.set previous.set)
                vs.apiVersion vs.applied)),
             timesInsert managed.Times identity now⟩ with
         | .error e => .err ("failed to encode managed fields: " ++ e)
         | .ok outObj => .ok outObj)) ∧
    (mfLookup (mfDelete stripped manager) identity = none →
      fieldManager.Update f liveObj newObj manager now =
        (match f.encodeManagedFields newObj
            ⟨mfInsert (mfDelete stripped manager) identity (some vs),
             timesInsert managed.Times identity now⟩ with
         | .error e => .err ("failed to encode managed fields: " ++ e)
         | .ok outObj => .ok outObj)) ∧
    (∀ (previous : VersionedSet) (p : Path), p ∈ previous.set ∨ p ∈ vs.set →
      p ∈ FieldSet.Union vs.set previous.set) := by
  refine ⟨mfLookup_mfDelete_self _ _, timesLookup_timesInsert_self _ _ _,
    ?_, ?_, ?_⟩
  · intro previous hprev
    simp only [fieldManager.Update, h0, h1, h2, h3, h4, h5, h6, h7, h8, h9,
      hprev]
  · intro hnone
    simp only [fieldManager.Update, h0, h1, h2, h3, h4, h5, h6, h7, h8, h9,
      hnone]
  · intro previous p hp
    rw [FieldSet.mem_Union]
    tauto

/-- The previously recorded set under the full Update identity, used by the
C2 witness. -/
def prevVS : VersionedSet := ⟨[["metadata", "labels"]], "v1", false⟩

/-- A field manager whose merge engine grants the acting manager
`spec` and `apiVersion`, over a live ledger that already has an entry under
the full Update identity. -/
def updFM : fieldManager :=
  { sampleFM with
    decodeManagedFields := fun _ =>
      .ok ⟨[("mgr/Update/v1", some prevVS)], [("mgr/Update/v1", 1)]⟩
    updaterUpdate := fun _ _ _ flds mgr =>
      .ok (0, mfInsert flds mgr
        (some ⟨[["spec"], ["apiVersion"]], "v1", false⟩)) }

/-- Witness for C2 at a concrete model: the same manager's previous entry
is unioned with the freshly stripped set. -/
theorem update_accumulates_witness :
    fieldManager.Update updFM 3 7 "mgr" 5 = .ok 7 := by
  have h := (update_accumulates updFM 3 7 "mgr" 5
      ⟨[("mgr/Update/v1", some prevVS)], [("mgr/Update/v1", 1)]⟩
      7 3 7 3 0
      [("mgr/Update/v1", some prevVS),
       ("mgr", some ⟨[["spec"], ["apiVersion"]], "v1", false⟩)]
      [("mgr/Update/v1", some prevVS), ("mgr", some ⟨[["spec"]], "v1", false⟩)]
      ⟨[["spec"]], "v1", false⟩ "mgr/Update/v1"
      rfl rfl rfl rfl rfl rfl rfl (by decide) (by decide) rfl).2.2.1
      prevVS (by decide)
  exact h.trans (by decide)

/-- C3: in `Apply`, a conflicts-shaped failure of the merge engine is
translated into a structured conflict error with no result object, and any
other merge failure is propagated to the caller unchanged. -/
theorem apply_conflict_translation (f : fieldManager) (liveObj : Obj)
    (patch : Patch) (fieldMgrName : String) (force : Bool) (now : Time)
    (managed : Managed) (patchObj lvRaw : Obj) (pt lt : TypedObj)
    (identity : String)
    (h0 : f.accessor liveObj = .ok ())
    (h1 : f.decodeManagedFields liveObj = .ok managed)
    (h2 : f.unmarshalPatch patch = .ok patchObj)
    (h3 : f.getManagedFieldsNonNil patchObj = false)
    (h4 : f.getAPIVersion patchObj = f.groupVersion)
    (h5 : f.convertToVersion liveObj f.groupVersion = .ok lvRaw)
    (h6 : f.objectToTyped patchObj = .ok pt)
    (h7 : f.objectToTyped (f.removeManagedFields lvRaw) = .ok lt)
    (h8 : f.buildManagerInfo fieldMgrName ManagedFieldsOperationApply =
      .ok identity) :
    (∀ cs, f.updaterApply lt pt f.groupVersion managed.Fields identity force =
        .conflicts cs →
      fieldManager.Apply f liveObj patch fieldMgrName force now =
        .conflictErr cs) ∧
    (∀ e, f.updaterApply lt pt f.groupVersion managed.Fields identity force =
        .failure e →
      fieldManager.Apply f liveObj patch fieldMgrName force now = .err e) := by
  constructor
  · intro cs hc
    simp [fieldManager.Apply, h0, h1, h2, h3, h4, h5, h6, h7, h8, hc]
  · intro e hc
    simp [fieldManager.Apply, h0, h1, h2, h3, h4, h5, h6, h7, h8, hc]

/-- A field manager whose merge engine reports a conflict on
`spec.replicas` owned by manager `"other"`. -/
def conflictFM : fieldManager :=
  { sampleFM with
    updaterApply := fun _ _ _ _ _ _ =>
      .conflicts [⟨"other", ["spec", "replicas"]⟩] }

/-- Witness for C3: the conflicts-shaped failure surfaces as a structured
conflict error. -/
theorem apply_conflict_translation_witness :
    fieldManager.Apply conflictFM 3 0 "mgr" false 0 =
      .conflictErr [⟨"other", ["spec", "replicas"]⟩] :=
  (apply_conflict_translation conflictFM 3 0 "mgr" false 0 ⟨[], []⟩ 0 3 0 3
    "mgr/Apply/v1" rfl rfl rfl rfl rfl rfl rfl rfl rfl).1 _ rfl

/-- `true` exactly on the bad-request-class results of `Apply`
(`errors.NewBadRequest`). -/
def ApplyResult.isBadRequest : ApplyResult → Bool
  | .badRequest _ => true
  | _ => false

/-- `hay` contains `needle` as a substring. -/
def containsStr (hay needle : String) : Prop :=
  ∃ a b, hay = a ++ needle ++ b

/-- C4: given a live object that passes the accessor and ledger-decode
steps, `Apply` returns a bad-request-class error exactly when the patch
fails to parse, declares a managed-fields ledger, or declares an API
version different from the working version; in the version-mismatch case
the message contains both the specified and the expected version. -/
theorem apply_bad_request_iff (f : fieldManager) (liveObj : Obj)
    (patch : Patch) (fieldMgrName : String) (force : Bool) (now : Time)
    (managed : Managed)
    (h0 : f.accessor liveObj = .ok ())
    (h1 : f.decodeManagedFields liveObj = .ok managed) :
    ((fieldManager.Apply f liveObj patch fieldMgrName force now).isBadRequest
        = true ↔
      (∃ e, f.unmarshalPatch patch = .error e) ∨
      (∃ p, f.unmarshalPatch patch = .ok p ∧
        (f.getManagedFieldsNonNil p = true ∨
          f.getAPIVersion p ≠ f.groupVersion))) ∧
    (∀ p, f.unmarshalPatch patch = .ok p →
      f.getManagedFieldsNonNil p = false →
      f.getAPIVersion p ≠ f.groupVersion →
      fieldManager.Apply f liveObj patch fieldMgrName force now =
        .badRequest
          ("Incorrect version specified in apply patch. Specified patch version: "
            ++ f.getAPIVersion p ++ ", expected: " ++ f.groupVersion) ∧
      containsStr
        ("Incorrect version specified in apply patch. Specified patch version: "
          ++ f.getAPIVersion p ++ ", expected: " ++ f.groupVersion)
        (f.getAPIVersion p) ∧
      containsStr
        ("Incorrect version specified in apply patch. Specified patch version: "
          ++ f.getAPIVersion p ++ ", expected: " ++ f.groupVersion)
        f.groupVersion) := by
  constructor
  · cases hu : f.unmarshalPatch patch with
    | error e =>
      simp [fieldManager.Apply, h0, h1, hu, ApplyResult.isBadRequest]
    | ok p =>
      by_cases hmf : f.getManagedFieldsNonNil p = true
      · simp [fieldManager.Apply, h0, h1, hu, hmf, ApplyResult.isBadRequest]
      · by_cases hv : f.getAPIVersion p = f.groupVersion
        · simp only [fieldManager.Apply, h0, h1, hu]
          rw [if_neg (by simp [hmf]), if_neg (by simp [hv])]
          constructor
          · intro hbad
            exfalso
            revert hbad
            repeat' split
            all_goals simp [ApplyResult.isBadRequest]
          · intro hr
            exfalso
            rcases hr with ⟨e, he⟩ | ⟨p', hp', hcond⟩
            · cases he
            · injection hp' with hpp
              subst hpp
              rcases hcond with htrue | hne
              · exact hmf htrue
              · exact hne hv
        · simp [fieldManager.Apply, h0, h1, hu, hmf, hv,
            ApplyResult.isBadRequest]
  · intro p hu hmf hne
    refine ⟨?_, ?_, ?_⟩
    · simp only [fieldManager.Apply, h0, h1, hu]
      rw [if_neg (by simp [hmf]), if_pos hne]
    · exact ⟨"Incorrect version specified in apply patch. Specified patch version: ",
        ", expected: " ++ f.groupVersion,
        by rw [String.append_assoc, String.append_assoc]⟩
    · exact ⟨"Incorrect version specified in apply patch. Specified patch version: "
          ++ f.getAPIVersion p ++ ", expected: ", "",
        by rw [String.append_empty]⟩

/-- A field manager against which every patch declares `apiVersion: v2`
while the working version is `v1`. -/
def wrongVersionFM : fieldManager :=
  { sampleFM with getAPIVersion := fun _ => "v2" }

/-- Witness for C4: the version-mismatch patch is rejected with a
bad-request error naming both versions. -/
theorem apply_bad_request_iff_witness :
    (fieldManager.Apply wrongVersionFM 3 0 "mgr" false 0).isBadRequest
      = true ∧
    fieldManager.Apply wrongVersionFM 3 0 "mgr" false 0 =
      .badRequest
        "Incorrect version specified in apply patch. Specified patch version: v2, expected: v1" := by
  have h := apply_bad_request_iff wrongVersionFM 3 0 "mgr" false 0 ⟨[], []⟩
    rfl rfl
  have hb := h.2 0 rfl rfl (by decide)
  exact ⟨by rw [hb.1]; rfl, hb.1.trans (by decide)⟩

/-- C10: in `Apply`, the last-write timestamp for the built apply identity
is written unconditionally after stripping; when stripping empties and
deletes that identity's field-set entry, the ledger encoded into the result
still carries a timestamp entry for the identity with no corresponding
field-set entry. -/
theorem apply_time_stamp_after_empty_strip (f : fieldManager) (liveObj : Obj)
    (patch : Patch) (fieldMgrName : String) (force : Bool) (now : Time)
    (managed : Managed) (patchObj lvRaw : Obj) (pt lt t0 : TypedObj)
    (identity : String) (mfOut : ManagedFields) (vs : VersionedSet)
    (newObj enc v u : Obj)
    (h0 : f.accessor liveObj = .ok ())
    (h1 : f.decodeManagedFields liveObj = .ok managed)
    (h2 : f.unmarshalPatch patch = .ok patchObj)
    (h3 : f.getManagedFieldsNonNil patchObj = false)
    (h4 : f.getAPIVersion patchObj = f.groupVersion)
    (h5 : f.convertToVersion liveObj f.groupVersion = .ok lvRaw)
    (h6 : f.objectToTyped patchObj = .ok pt)
    (h7 : f.objectToTyped (f.removeManagedFields lvRaw) = .ok lt)
    (h8 : f.buildManagerInfo fieldMgrName ManagedFieldsOperationApply =
      .ok identity)
    (h9 : f.updaterApply lt pt f.groupVersion managed.Fields identity force =
      .ok t0 mfOut)
    (h10 : mfLookup mfOut identity = some (some vs))
    (h11 : FieldSet.Empty (FieldSet.Difference vs.set stripSet) = true)
    (h12 : f.typedToObject t0 = .ok newObj)
    (h13 : f.encodeManagedFields newObj
      ⟨mfDelete mfOut identity, timesInsert managed.Times identity now⟩ =
      .ok enc)
    (h14 : f.convertToVersion enc f.groupVersion = .ok v)
    (h15 : f.convertToVersion (f.defaultObj v) f.hubVersion = .ok u) :
    fieldManager.Apply f liveObj patch fieldMgrName force now = .ok u ∧
    mfLookup (mfDelete mfOut identity) identity = none ∧
    timesLookup (timesInsert managed.Times identity now) identity =
      some now := by
  have hstrip : stripFields mfOut identity = .ok (mfDelete mfOut identity) := by
    rw [stripFields_difference_spec mfOut identity vs h10, if_pos h11]
  refine ⟨?_, mfLookup_mfDelete_self _ _, timesLookup_timesInsert_self _ _ _⟩
  simp [fieldManager.Apply, h0, h1, h2, h3, h4, h5, h6, h7, h8, h9, hstrip,
    h12, h13, h14, h15]

/-- A field manager whose merge engine grants the apply identity only the
`apiVersion` bookkeeping path, so stripping empties its entry. -/
def emptyStripFM : fieldManager :=
  { sampleFM with
    decodeManagedFields := fun _ => .ok ⟨[], [("old", 1)]⟩
    updaterApply := fun _ p _ flds mgr _ =>
      .ok p (mfInsert flds mgr (some ⟨[["apiVersion"]], "v1", true⟩)) }

/-- Witness for C10: the result ledger keeps the identity's timestamp while
its field-set entry is gone. -/
theorem apply_time_stamp_after_empty_strip_witness :
    fieldManager.Apply emptyStripFM 3 0 "mgr" false 5 = .ok 0 ∧
    mfLookup (mfDelete [("mgr/Apply/v1", some ⟨[["apiVersion"]], "v1", true⟩)]
      "mgr/Apply/v1") "mgr/Apply/v1" = none ∧
    timesLookup (timesInsert [("old", 1)] "mgr/Apply/v1" 5) "mgr/Apply/v1" =
      some 5 :=
  apply_time_stamp_after_empty_strip emptyStripFM 3 0 "mgr" false 5
    ⟨[], [("old", 1)]⟩ 0 3 0 3 0 "mgr/Apply/v1"
    [("mgr/Apply/v1", some ⟨[["apiVersion"]], "v1", true⟩)]
    ⟨[["apiVersion"]], "v1", true⟩ 0 0 0 0
    rfl rfl rfl rfl rfl rfl rfl rfl rfl rfl (by decide) (by decide)
    rfl rfl rfl rfl

end FieldManagerSpec
